import Mathlib

/-!
# NanoMotion streaming protocol: a shallow embedding

This development embeds the chunked-streaming orchestration of the NanoMotion
repository and settles the claims of its specification against it:

* `src/app/api/stop-motion/route.ts` — the `POST` handler: input validation,
  the orchestration loop over `generatePosesFromImageBuffer` and `nanobanana`,
  and the `JSON.stringify(...) + "\n---CHUNK_END---\n"` wire encoding;
* `src/app/page.tsx` (`generateAnimation`) — the client decode loop:
  buffer accumulation, `split` on the delimiter, `trim`/skip/`JSON.parse`
  per part, and the dispatch `switch`;
* `src/lib/ai.ts` (the unnamed source file) — the `nanobanana` adapter's
  post-processing of the remote response.

Strings are modelled as `List Char` on the wire (the client's `TextDecoder`
with `stream: true` reassembles byte chunks into characters, so fragmentation
is modelled at character granularity).  The remote model calls are opaque
collaborators: their outcomes (result or thrown error) are inputs of the
embedded orchestrator.  `JSON.stringify` on the fixed event shapes the route
produces is embedded literally, including its string-escaping rules;
`JSON.parse` in the decoder is embedded as a parser of exactly that emitted
sublanguage.
-/

/-- A progress event as the route serializes it onto the wire.
`poses` carries the raw planner text (`response.text`, which the SDK types as
possibly `undefined`, hence `Option`); `frame` is the `type:"nanobanana"`
event whose `data` is the image-tagged renderer result; `complete` and
`error` are the terminals. -/
inductive WireEvent
  | poses (data : Option String)
  | frame (base64ImageData : String) (contentType : String)
  | complete (data : String)
  | error (data : String)
deriving DecidableEq

/-- The chunk delimiter appended after every serialized event
(`"\n---CHUNK_END---\n"` in `route.ts`, split on in `page.tsx`). -/
def CHUNK_DELIM : List Char := "\n---CHUNK_END---\n".data

/-- Lower-case hex digit, as produced by the `\u00XX` escapes of
`JSON.stringify`. -/
def hexDigit (n : Nat) : Char :=
  if n < 10 then Char.ofNat ('0'.toNat + n) else Char.ofNat ('a'.toNat + (n - 10))

/-- `JSON.stringify` escaping of one character inside a string literal:
quote, backslash and the named control escapes get two-character escapes,
all other control characters get `\u00XX`, everything else is unchanged. -/
def escapeChar (c : Char) : List Char :=
  if c = '\"' then ['\\', '\"']
  else if c = '\\' then ['\\', '\\']
  else if c = '\n' then ['\\', 'n']
  else if c = '\r' then ['\\', 'r']
  else if c = '\t' then ['\\', 't']
  else if c = '\x08' then ['\\', 'b']
  else if c = '\x0c' then ['\\', 'f']
  else if c.toNat < 32 then
    ['\\', 'u', '0', '0', hexDigit (c.toNat / 16), hexDigit (c.toNat % 16)]
  else [c]

/-- `JSON.stringify` escaping of a whole string body. -/
def escapeList : List Char → List Char
  | [] => []
  | c :: cs => escapeChar c ++ escapeList cs

/-- Leading token of the `poses` event: `JSON.stringify({type:"poses",...})`
up to the point where the `data` field would start. -/
def posesStub : List Char := "\x7b\"type\":\"poses\"".data

/-- The `,"data":"` token introducing a string-valued `data` field. -/
def dataPfx : List Char := ",\"data\":\"".data

/-- Leading token of the `complete` event including the opening quote of its
`data` string. -/
def completePfx : List Char := "\x7b\"type\":\"complete\",\"data\":\"".data

/-- Leading token of the `error` event including the opening quote of its
`data` string. -/
def errorPfx : List Char := "\x7b\"type\":\"error\",\"data\":\"".data

/-- Leading token of the frame event
(`{type:"nanobanana",data:{type:"image",base64ImageData:...}}`) including the
opening quote of the base64 payload. -/
def framePfx : List Char :=
  "\x7b\"type\":\"nanobanana\",\"data\":\x7b\"type\":\"image\",\"base64ImageData\":\"".data

/-- Token between the closing quote of the base64 payload and the opening
quote of the `contentType` string (the closing quote itself excluded: the
string parser consumes it). -/
def ctMid : List Char := ",\"contentType\":\"".data

/-- The closing `"}` of an event whose `data` is a plain string. -/
def endQB : List Char := "\"\x7d".data

/-- The closing `"}}` of the frame event (string close, inner and outer
object close). -/
def endQB2 : List Char := "\"\x7d\x7d".data

/-- The lone `}` closing a `poses` event with omitted `data`. -/
def rbraceTok : List Char := "\x7d".data

/-- `JSON.stringify` of one event exactly as `route.ts` builds it (before the
delimiter is appended).  A planner text of `undefined` makes `JSON.stringify`
omit the `data` field entirely. -/
def serialize : WireEvent → List Char
  | WireEvent.poses none => posesStub ++ rbraceTok
  | WireEvent.poses (some d) =>
      posesStub ++ (dataPfx ++ (escapeList d.data ++ endQB))
  | WireEvent.frame b ct =>
      framePfx ++ (escapeList b.data ++ ('\"' :: (ctMid ++ (escapeList ct.data ++ endQB2))))
  | WireEvent.complete d => completePfx ++ (escapeList d.data ++ endQB)
  | WireEvent.error d => errorPfx ++ (escapeList d.data ++ endQB)

/-- Character-by-character prefix test (recursing on the pattern, so that it
evaluates as far as the pattern is concrete). -/
def startsWith : List Char → List Char → Bool
  | [], _ => true
  | p :: ps, s =>
    match s with
    | [] => false
    | c :: cs => (p == c) && startsWith ps cs

theorem startsWith_iff : ∀ (l1 l2 : List Char), startsWith l1 l2 = true ↔ l1 <+: l2 := by
  intro l1
  induction l1 with
  | nil => intro l2; simp [startsWith, List.nil_prefix]
  | cons p ps ih =>
    intro l2
    cases l2 with
    | nil => simp [startsWith, List.prefix_nil]
    | cons c cs =>
      show ((p == c) && startsWith ps cs) = true ↔ _
      rw [List.cons_prefix_cons, Bool.and_eq_true, beq_iff_eq, ih cs]

/-- The leftmost occurrence of `CHUNK_DELIM` in a character stream: the text
before it and the text after it.  This is the search that one round of the
client's `buffer.split('\n---CHUNK_END---\n')` performs. -/
def findDelim : List Char → Option (List Char × List Char)
  | [] => none
  | c :: cs =>
    if startsWith CHUNK_DELIM (c :: cs) then
      some ([], (c :: cs).drop CHUNK_DELIM.length)
    else
      match findDelim cs with
      | none => none
      | some (pre, post) => some (c :: pre, post)

theorem findDelim_decomp :
    ∀ {s pre post : List Char}, findDelim s = some (pre, post) →
      s = pre ++ CHUNK_DELIM ++ post := by
  intro s
  induction s with
  | nil => intro pre post h; simp [findDelim] at h
  | cons c cs ih =>
    intro pre post h
    unfold findDelim at h
    split_ifs at h with hp
    · simp only [Option.some.injEq, Prod.mk.injEq] at h
      obtain ⟨h1, h2⟩ := h
      subst h1; subst h2
      obtain ⟨t, ht⟩ := (startsWith_iff _ _).mp hp
      rw [← ht, List.drop_left]
      simp
    · rcases hm : findDelim cs with _ | ⟨p2, q2⟩
      · rw [hm] at h; exact absurd h (by simp)
      · rw [hm] at h
        simp only [Option.some.injEq, Prod.mk.injEq] at h
        obtain ⟨h1, h2⟩ := h
        subst h1; subst h2
        have := ih hm
        rw [List.cons_append, List.cons_append, ← this]

theorem findDelim_length_le :
    ∀ {s pre post : List Char}, findDelim s = some (pre, post) →
      CHUNK_DELIM.length ≤ s.length := by
  intro s pre post h
  have := findDelim_decomp h
  subst this
  simp only [List.length_append]
  omega

theorem findDelim_append_right (t : List Char) :
    ∀ {s pre post : List Char}, findDelim s = some (pre, post) →
      findDelim (s ++ t) = some (pre, post ++ t) := by
  intro s
  induction s with
  | nil => intro pre post h; simp [findDelim] at h
  | cons c cs ih =>
    intro pre post h
    unfold findDelim at h
    split_ifs at h with hp
    · simp only [Option.some.injEq, Prod.mk.injEq] at h
      obtain ⟨h1, h2⟩ := h
      subst h1; subst h2
      obtain ⟨r, hr⟩ := (startsWith_iff _ _).mp hp
      have hp2 : startsWith CHUNK_DELIM ((c :: cs) ++ t) = true := by
        apply (startsWith_iff _ _).mpr
        exact ⟨r ++ t, by rw [← List.append_assoc, hr]⟩
      have hlen : CHUNK_DELIM.length ≤ (c :: cs).length := by
        rw [← hr]; simp
      rw [List.cons_append, findDelim]
      rw [← List.cons_append]
      simp only [hp2, if_true]
      congr 1
      rw [List.drop_append_eq_append_drop, Nat.sub_eq_zero_of_le hlen, List.drop_zero]
    · rcases hm : findDelim cs with _ | ⟨p2, q2⟩
      · rw [hm] at h; exact absurd h (by simp)
      · rw [hm] at h
        simp only [Option.some.injEq, Prod.mk.injEq] at h
        obtain ⟨h1, h2⟩ := h
        subst h1; subst h2
        have hlen : CHUNK_DELIM.length ≤ cs.length := findDelim_length_le hm
        have hp2 : startsWith CHUNK_DELIM ((c :: cs) ++ t) = false := by
          by_contra hcon
          have htrue : startsWith CHUNK_DELIM ((c :: cs) ++ t) = true := by
            cases hb : startsWith CHUNK_DELIM ((c :: cs) ++ t)
            · exact absurd hb hcon
            · rfl
          have hpre := (startsWith_iff _ _).mp htrue
          have htake := List.prefix_iff_eq_take.mp hpre
          have hle : CHUNK_DELIM.length ≤ (c :: cs).length := by simp; omega
          rw [List.take_append_eq_append_take, Nat.sub_eq_zero_of_le hle,
            List.take_zero, List.append_nil] at htake
          have : CHUNK_DELIM <+: (c :: cs) := by
            rw [List.prefix_iff_eq_take]; exact htake
          rw [(startsWith_iff _ _).mpr this] at hp
          exact hp rfl
        rw [List.cons_append, findDelim, ← List.cons_append]
        simp only [hp2, Bool.false_eq_true, if_false]
        rw [ih hm]

theorem newline_mem_CHUNK_DELIM : '\n' ∈ CHUNK_DELIM := by decide

theorem hexDigit_ne_newline : ∀ n < 16, hexDigit n ≠ '\n' := by decide

theorem escapeChar_ne_newline (ch : Char) : ∀ c ∈ escapeChar ch, c ≠ '\n' := by
  unfold escapeChar
  split_ifs with h1 h2 h3 h4 h5 h6 h7 h8
  · decide
  · decide
  · decide
  · decide
  · decide
  · decide
  · decide
  · intro c hc
    simp only [List.mem_cons, List.mem_singleton] at hc
    rcases hc with rfl | rfl | rfl | rfl | rfl | rfl | hfalse
    · decide
    · decide
    · decide
    · decide
    · exact hexDigit_ne_newline _ (Nat.div_lt_of_lt_mul (by omega))
    · exact hexDigit_ne_newline _ (Nat.mod_lt _ (by omega))
    · simp at hfalse
  · intro c hc
    simp only [List.mem_singleton] at hc
    subst hc
    intro heq
    rw [heq] at h8
    exact h8 (by decide)

theorem escapeList_ne_newline (s : List Char) : ∀ c ∈ escapeList s, c ≠ '\n' := by
  induction s with
  | nil => intro c hc; simp [escapeList] at hc
  | cons ch rest ih =>
    intro c hc
    simp only [escapeList, List.mem_append] at hc
    rcases hc with hc | hc
    · exact escapeChar_ne_newline ch c hc
    · exact ih c hc

theorem posesStub_ne_newline : ∀ c ∈ posesStub, c ≠ '\n' := by decide

theorem dataPfx_ne_newline : ∀ c ∈ dataPfx, c ≠ '\n' := by decide

theorem completePfx_ne_newline : ∀ c ∈ completePfx, c ≠ '\n' := by decide

theorem errorPfx_ne_newline : ∀ c ∈ errorPfx, c ≠ '\n' := by decide

theorem framePfx_ne_newline : ∀ c ∈ framePfx, c ≠ '\n' := by decide

theorem ctMid_ne_newline : ∀ c ∈ ctMid, c ≠ '\n' := by decide

theorem endQB_ne_newline : ∀ c ∈ endQB, c ≠ '\n' := by decide

theorem endQB2_ne_newline : ∀ c ∈ endQB2, c ≠ '\n' := by decide

theorem rbraceTok_ne_newline : ∀ c ∈ rbraceTok, c ≠ '\n' := by decide

theorem serialize_ne_newline (e : WireEvent) : ∀ c ∈ serialize e, c ≠ '\n' := by
  cases e with
  | poses d =>
    cases d with
    | none =>
      intro c hc
      rcases List.mem_append.mp hc with hc | hc
      · exact posesStub_ne_newline c hc
      · exact rbraceTok_ne_newline c hc
    | some s =>
      intro c hc
      simp only [serialize, List.append_assoc, List.mem_append] at hc
      rcases hc with hc | hc | hc | hc
      · exact posesStub_ne_newline c hc
      · exact dataPfx_ne_newline c hc
      · exact escapeList_ne_newline _ c hc
      · exact endQB_ne_newline c hc
  | frame b ct =>
    intro c hc
    simp only [serialize, List.append_assoc, List.cons_append, List.mem_append,
      List.mem_cons] at hc
    rcases hc with hc | hc | rfl | hc | hc | hc
    · exact framePfx_ne_newline c hc
    · exact escapeList_ne_newline _ c hc
    · decide
    · exact ctMid_ne_newline c hc
    · exact escapeList_ne_newline _ c hc
    · exact endQB2_ne_newline c hc
  | complete d =>
    intro c hc
    simp only [serialize, List.append_assoc, List.mem_append] at hc
    rcases hc with hc | hc | hc
    · exact completePfx_ne_newline c hc
    · exact escapeList_ne_newline _ c hc
    · exact endQB_ne_newline c hc
  | error d =>
    intro c hc
    simp only [serialize, List.append_assoc, List.mem_append] at hc
    rcases hc with hc | hc | hc
    · exact errorPfx_ne_newline c hc
    · exact escapeList_ne_newline _ c hc
    · exact endQB_ne_newline c hc

/-- Claim C5 (confirmed): the serialized JSON payload of an event never
contains the delimiter token `"\n---CHUNK_END---\n"`: the leftmost-occurrence
search `findDelim` (the one the decoder's `split` performs) finds no delimiter
inside any payload.  The escaping done by `JSON.stringify` leaves no raw
newline in a payload, while the delimiter starts with one, so on the wire the
delimiter occurs only as the boundary appended between events. -/
theorem delimiter_never_in_payload (e : WireEvent) :
    findDelim (serialize e) = none := by
  rcases h : findDelim (serialize e) with _ | ⟨pre, post⟩
  · rfl
  · exfalso
    have hd := findDelim_decomp h
    have : '\n' ∈ serialize e := by
      rw [hd]
      simp only [List.append_assoc, List.mem_append]
      exact Or.inr (Or.inl newline_mem_CHUNK_DELIM)
    exact serialize_ne_newline e '\n' this rfl

/-! ## The client's `JSON.parse`, restricted to the emitted sublanguage

The decoder calls `JSON.parse` on each extracted part and dispatches on
`data.type`, reading `data.data` (and for frames `data.data.base64ImageData`
and `data.data.contentType`).  We embed this as a parser of exactly the JSON
texts the route emits: match the fixed leading tokens, decode the escaped
string payloads, and require the closing tokens. -/

/-- Value of one hex digit character, as `JSON.parse` reads `\uXXXX`. -/
def hexVal? (c : Char) : Option Nat :=
  if '0' ≤ c ∧ c ≤ '9' then some (c.toNat - '0'.toNat)
  else if 'a' ≤ c ∧ c ≤ 'f' then some (c.toNat - 'a'.toNat + 10)
  else if 'A' ≤ c ∧ c ≤ 'F' then some (c.toNat - 'A'.toNat + 10)
  else none

/-- The single-character JSON escapes (`\"`, `\\`, `\/`, `\n`, `\r`, `\t`,
`\b`, `\f`). -/
def unescapeOf (e : Char) : Option Char :=
  if e = '\"' then some '\"'
  else if e = '\\' then some '\\'
  else if e = '/' then some '/'
  else if e = 'n' then some '\n'
  else if e = 'r' then some '\r'
  else if e = 't' then some '\t'
  else if e = 'b' then some '\x08'
  else if e = 'f' then some '\x0c'
  else none

/-- Parse a JSON string body after its opening quote: unescape up to the
closing quote, returning the decoded characters and the unconsumed rest. -/
def parseStringLit : List Char → Option (List Char × List Char)
  | [] => none
  | '\"' :: r => some ([], r)
  | '\\' :: 'u' :: a :: b :: c2 :: d :: r3 =>
    match hexVal? a, hexVal? b, hexVal? c2, hexVal? d with
    | some ha, some hb, some hc, some hd =>
      (parseStringLit r3).map
        (fun p => (Char.ofNat (((ha * 16 + hb) * 16 + hc) * 16 + hd) :: p.1, p.2))
    | _, _, _, _ => none
  | '\\' :: e :: r2 =>
    match unescapeOf e with
    | some u => (parseStringLit r2).map (fun p => (u :: p.1, p.2))
    | none => none
  | c :: r => (parseStringLit r).map (fun p => (c :: p.1, p.2))

theorem parseStringLit_cons_ne (c : Char) (h1 : c ≠ '\"') (h2 : c ≠ '\\') (l : List Char) :
    parseStringLit (c :: l) = (parseStringLit l).map (fun p => (c :: p.1, p.2)) := by
  rw [parseStringLit.eq_def]
  split
  · simp_all
  · simp_all
  · simp_all
  · simp_all
  · simp_all

theorem hexVal?_hexDigit : ∀ n < 16, hexVal? (hexDigit n) = some n := by decide

/-- Unescaping inverts escaping, leaving the rest of the input untouched. -/
theorem parseStringLit_escape :
    ∀ (s r : List Char), parseStringLit (escapeList s ++ '\"' :: r) = some (s, r) := by
  intro s
  induction s with
  | nil => intro r; rfl
  | cons c cs ih =>
    intro r
    simp only [escapeList, List.append_assoc]
    unfold escapeChar
    split_ifs with hq hb hn hr ht hbsp hff hu
    · subst hq
      show (parseStringLit (escapeList cs ++ '\"' :: r)).map
          (fun p => ('\"' :: p.1, p.2)) = some ('\"' :: cs, r)
      rw [ih]
      rfl
    · subst hb
      show (parseStringLit (escapeList cs ++ '\"' :: r)).map
          (fun p => ('\\' :: p.1, p.2)) = some ('\\' :: cs, r)
      rw [ih]
      rfl
    · subst hn
      show (parseStringLit (escapeList cs ++ '\"' :: r)).map
          (fun p => ('\n' :: p.1, p.2)) = some ('\n' :: cs, r)
      rw [ih]
      rfl
    · subst hr
      show (parseStringLit (escapeList cs ++ '\"' :: r)).map
          (fun p => ('\r' :: p.1, p.2)) = some ('\r' :: cs, r)
      rw [ih]
      rfl
    · subst ht
      show (parseStringLit (escapeList cs ++ '\"' :: r)).map
          (fun p => ('\t' :: p.1, p.2)) = some ('\t' :: cs, r)
      rw [ih]
      rfl
    · subst hbsp
      show (parseStringLit (escapeList cs ++ '\"' :: r)).map
          (fun p => ('\x08' :: p.1, p.2)) = some ('\x08' :: cs, r)
      rw [ih]
      rfl
    · subst hff
      show (parseStringLit (escapeList cs ++ '\"' :: r)).map
          (fun p => ('\x0c' :: p.1, p.2)) = some ('\x0c' :: cs, r)
      rw [ih]
      rfl
    · show (match hexVal? '0', hexVal? '0', hexVal? (hexDigit (c.toNat / 16)),
            hexVal? (hexDigit (c.toNat % 16)) with
        | some ha, some hb2, some hc2, some hd =>
          (parseStringLit (escapeList cs ++ '\"' :: r)).map
            (fun p => (Char.ofNat (((ha * 16 + hb2) * 16 + hc2) * 16 + hd) :: p.1, p.2))
        | _, _, _, _ => none) = some (c :: cs, r)
      rw [hexVal?_hexDigit (c.toNat / 16) (by omega), hexVal?_hexDigit (c.toNat % 16) (by omega)]
      show (parseStringLit (escapeList cs ++ '\"' :: r)).map
          (fun p => (Char.ofNat (((0 * 16 + 0) * 16 + c.toNat / 16) * 16 + c.toNat % 16)
            :: p.1, p.2)) = some (c :: cs, r)
      rw [ih]
      have harith : ((0 * 16 + 0) * 16 + c.toNat / 16) * 16 + c.toNat % 16 = c.toNat := by
        omega
      rw [harith, Char.ofNat_toNat]
      rfl
    · show parseStringLit (c :: (escapeList cs ++ '\"' :: r)) = some (c :: cs, r)
      rw [parseStringLit_cons_ne c hq hb, ih]
      rfl

/-- Character-by-character matching of a fixed leading token, returning the
rest of the input when the token is present. -/
def expect : List Char → List Char → Option (List Char)
  | [], s => some s
  | _ :: _, [] => none
  | p :: ps, c :: cs => if c = p then expect ps cs else none

theorem expect_append : ∀ (p x : List Char), expect p (p ++ x) = some x := by
  intro p
  induction p with
  | nil => intro x; rfl
  | cons c cs ih => intro x; simp [expect, ih]

/-- The closing `}}` of the frame event as seen after its `contentType`
string. -/
def rbrace2Tok : List Char := "\x7d\x7d".data

/-- The decoder's `JSON.parse` + `data.type` dispatch, restricted to the
sublanguage of texts the route's `JSON.stringify` calls emit: recognize the
fixed tokens of the four event shapes and decode the escaped string
payloads.  Anything else — in particular any text `JSON.parse` would reject —
yields `none` (the decode loop then skips the part). -/
def parseLine (s : List Char) : Option WireEvent :=
  match expect posesStub s with
  | some r =>
    match expect dataPfx r with
    | some r2 =>
      match parseStringLit r2 with
      | some p => if p.2 = rbraceTok then some (WireEvent.poses (some (String.mk p.1))) else none
      | none => none
    | none => if r = rbraceTok then some (WireEvent.poses none) else none
  | none =>
  match expect completePfx s with
  | some r =>
    match parseStringLit r with
    | some p => if p.2 = rbraceTok then some (WireEvent.complete (String.mk p.1)) else none
    | none => none
  | none =>
  match expect errorPfx s with
  | some r =>
    match parseStringLit r with
    | some p => if p.2 = rbraceTok then some (WireEvent.error (String.mk p.1)) else none
    | none => none
  | none =>
  match expect framePfx s with
  | some r =>
    match parseStringLit r with
    | some p =>
      match expect ctMid p.2 with
      | some r2 =>
        match parseStringLit r2 with
        | some q =>
          if q.2 = rbrace2Tok then some (WireEvent.frame (String.mk p.1) (String.mk q.1))
          else none
        | none => none
      | none => none
    | none => none
  | none => none

/-- Parsing inverts serialization: the decoder reconstructs exactly the event
the route serialized. -/
theorem parseLine_serialize (e : WireEvent) : parseLine (serialize e) = some e := by
  cases e with
  | poses d =>
    cases d with
    | none => rfl
    | some s =>
      have h := parseStringLit_escape s.data ['\x7d']
      show (match parseStringLit (escapeList s.data ++ '\"' :: ['\x7d']) with
        | some p => if p.2 = rbraceTok then some (WireEvent.poses (some (String.mk p.1))) else none
        | none => none) = some (WireEvent.poses (some s))
      rw [h]
      rfl
  | frame b ct =>
    have hb := parseStringLit_escape b.data
      (ctMid ++ (escapeList ct.data ++ '\"' :: ['\x7d', '\x7d']))
    have hct := parseStringLit_escape ct.data ['\x7d', '\x7d']
    show (match parseStringLit (escapeList b.data ++ '\"' ::
          (ctMid ++ (escapeList ct.data ++ '\"' :: ['\x7d', '\x7d']))) with
      | some p =>
        match expect ctMid p.2 with
        | some r2 =>
          match parseStringLit r2 with
          | some q =>
            if q.2 = rbrace2Tok then some (WireEvent.frame (String.mk p.1) (String.mk q.1))
            else none
          | none => none
        | none => none
      | none => none) = some (WireEvent.frame b ct)
    rw [hb]
    show (match expect ctMid (ctMid ++ (escapeList ct.data ++ '\"' :: ['\x7d', '\x7d'])) with
      | some r2 =>
        match parseStringLit r2 with
        | some q =>
          if q.2 = rbrace2Tok then some (WireEvent.frame b (String.mk q.1))
          else none
        | none => none
      | none => none) = some (WireEvent.frame b ct)
    rw [expect_append]
    show (match parseStringLit (escapeList ct.data ++ '\"' :: ['\x7d', '\x7d']) with
      | some q =>
        if q.2 = rbrace2Tok then some (WireEvent.frame b (String.mk q.1))
        else none
      | none => none) = some (WireEvent.frame b ct)
    rw [hct]
    rfl
  | complete s =>
    have h := parseStringLit_escape s.data ['\x7d']
    show (match parseStringLit (escapeList s.data ++ '\"' :: ['\x7d']) with
      | some p => if p.2 = rbraceTok then some (WireEvent.complete (String.mk p.1)) else none
      | none => none) = some (WireEvent.complete s)
    rw [h]
    rfl
  | error s =>
    have h := parseStringLit_escape s.data ['\x7d']
    show (match parseStringLit (escapeList s.data ++ '\"' :: ['\x7d']) with
      | some p => if p.2 = rbraceTok then some (WireEvent.error (String.mk p.1)) else none
      | none => none) = some (WireEvent.error s)
    rw [h]
    rfl

/-! ## The client's decode loop

`generateAnimation` keeps a string `buffer`, appends each received chunk,
splits on the delimiter, pops the final (possibly incomplete) piece back into
the buffer, and for every complete part: trims it, skips it when empty,
`JSON.parse`s it and dispatches — a part that fails to parse is only warned
about and skipped. -/

/-- The whitespace test of `String.prototype.trim`, on the characters that
can occur here. -/
def isWS (c : Char) : Bool :=
  (c == ' ') || (c == '\n') || (c == '\t') || (c == '\r') || (c == '\x0b') || (c == '\x0c')

/-- `part.trim()`: strip whitespace от both ends. -/
def trimChars (l : List Char) : List Char :=
  ((l.dropWhile isWS).reverse.dropWhile isWS).reverse

/-- One part of the split buffer, processed as the loop body does:
`trim`, skip when empty, `JSON.parse` (with parse failures skipped). -/
def processPart (part : List Char) : Option WireEvent :=
  if trimChars part = [] then none else parseLine (trimChars part)

/-- The client decoder's state across reads: the retained partial suffix and
the events decoded so far. -/
structure DecoderState where
  buffer : List Char
  events : List WireEvent
deriving DecidableEq

/-- `buffer.split('\n---CHUNK_END---\n')` followed by `parts.pop()`: the
complete parts in order, and the trailing remainder that goes back into the
buffer. -/
def splitParts (s : List Char) : List (List Char) × List Char :=
  match h : findDelim s with
  | none => ([], s)
  | some (pre, post) =>
    let r := splitParts post
    (pre :: r.1, r.2)
termination_by s.length
decreasing_by
  have hd := findDelim_decomp h
  rw [hd]
  simp only [List.length_append]
  have : 0 < CHUNK_DELIM.length := by decide
  omega

/-- One iteration of the client's read loop on one received chunk: append to
the buffer, split, keep the trailing part, process the complete parts. -/
def feedChunk (st : DecoderState) (chunk : List Char) : DecoderState :=
  ⟨(splitParts (st.buffer ++ chunk)).2,
    st.events ++ (splitParts (st.buffer ++ chunk)).1.filterMap processPart⟩

/-- The whole read loop over a sequence of received chunks. -/
def feedAll (st : DecoderState) : List (List Char) → DecoderState
  | [] => st
  | c :: cs => feedAll (feedChunk st c) cs

/-- The route's emission: every event serialized and followed by the
delimiter, concatenated in order. -/
def encodeStream : List WireEvent → List Char
  | [] => []
  | e :: rest => serialize e ++ (CHUNK_DELIM ++ encodeStream rest)

theorem splitParts_none {s : List Char} (h : findDelim s = none) :
    splitParts s = ([], s) := by
  unfold splitParts
  split
  · rfl
  · rename_i pre post heq
    rw [h] at heq
    exact absurd heq (by simp)

theorem splitParts_some {s pre post : List Char} (h : findDelim s = some (pre, post)) :
    splitParts s = (pre :: (splitParts post).1, (splitParts post).2) := by
  conv_lhs => unfold splitParts
  split
  · rename_i heq
    rw [h] at heq
    exact absurd heq (by simp)
  · rename_i p2 q2 heq
    rw [h] at heq
    simp only [Option.some.injEq, Prod.mk.injEq] at heq
    obtain ⟨h1, h2⟩ := heq
    subst h1; subst h2
    rfl

theorem splitParts_append :
    ∀ (s t : List Char),
      splitParts (s ++ t) =
        ((splitParts s).1 ++ (splitParts ((splitParts s).2 ++ t)).1,
          (splitParts ((splitParts s).2 ++ t)).2) := by
  suffices H : ∀ (n : Nat) (s t : List Char), s.length = n →
      splitParts (s ++ t) =
        ((splitParts s).1 ++ (splitParts ((splitParts s).2 ++ t)).1,
          (splitParts ((splitParts s).2 ++ t)).2) by
    intro s t
    exact H s.length s t rfl
  intro n
  induction n using Nat.strong_induction_on with
  | _ n ih =>
    intro s t hlen
    rcases h : findDelim s with _ | ⟨pre, post⟩
    · rw [splitParts_none h]
      simp
    · have hdec := findDelim_decomp h
      have hlt : post.length < n := by
        rw [← hlen, hdec]
        simp only [List.length_append]
        have : 0 < CHUNK_DELIM.length := by decide
        omega
      rw [splitParts_some h, splitParts_some (findDelim_append_right t h),
        ih post.length hlt post t rfl]
      simp

theorem findDelim_splitParts_buffer :
    ∀ (s : List Char), findDelim (splitParts s).2 = none := by
  suffices H : ∀ (n : Nat) (s : List Char), s.length = n →
      findDelim (splitParts s).2 = none by
    intro s
    exact H s.length s rfl
  intro n
  induction n using Nat.strong_induction_on with
  | _ n ih =>
    intro s hlen
    rcases h : findDelim s with _ | ⟨pre, post⟩
    · rw [splitParts_none h]; exact h
    · have hdec := findDelim_decomp h
      have hlt : post.length < n := by
        rw [← hlen, hdec]
        simp only [List.length_append]
        have : 0 < CHUNK_DELIM.length := by decide
        omega
      rw [splitParts_some h]
      exact ih post.length hlt post rfl

theorem feedChunk_append (st : DecoderState) (a b : List Char) :
    feedChunk st (a ++ b) = feedChunk (feedChunk st a) b := by
  unfold feedChunk
  rw [← List.append_assoc, splitParts_append (st.buffer ++ a) b]
  simp [List.filterMap_append, List.append_assoc]

theorem feedChunk_nil {st : DecoderState} (h : findDelim st.buffer = none) :
    feedChunk st [] = st := by
  unfold feedChunk
  rw [List.append_nil, splitParts_none h]
  simp

theorem feedAll_eq_flatten :
    ∀ (chunks : List (List Char)) (st : DecoderState),
      findDelim st.buffer = none → feedAll st chunks = feedChunk st chunks.flatten := by
  intro chunks
  induction chunks with
  | nil =>
    intro st h
    show st = feedChunk st []
    rw [feedChunk_nil h]
  | cons c cs ih =>
    intro st h
    show feedAll (feedChunk st c) cs = feedChunk st ((c :: cs).flatten)
    have hb : findDelim (feedChunk st c).buffer = none := findDelim_splitParts_buffer _
    rw [ih (feedChunk st c) hb, ← feedChunk_append]
    rfl

theorem findDelim_payload :
    ∀ (p : List Char), (∀ c ∈ p, c ≠ '\n') → ∀ (rest : List Char),
      findDelim (p ++ (CHUNK_DELIM ++ rest)) = some (p, rest) := by
  intro p
  induction p with
  | nil => intro _ rest; rfl
  | cons c p' ih =>
    intro hp rest
    have hc : c ≠ '\n' := hp c (List.mem_cons_self c p')
    have hnp : ¬ CHUNK_DELIM <+: (c :: (p' ++ (CHUNK_DELIM ++ rest))) := by
      intro hcon
      obtain ⟨t2, ht2⟩ := hcon
      rw [show CHUNK_DELIM = '\n' :: "---CHUNK_END---\n".data from rfl,
        List.cons_append] at ht2
      injection ht2 with hh _
      exact hc hh.symm
    have hpre : startsWith CHUNK_DELIM (c :: (p' ++ (CHUNK_DELIM ++ rest))) = false := by
      cases hb : startsWith CHUNK_DELIM (c :: (p' ++ (CHUNK_DELIM ++ rest)))
      · rfl
      · exact absurd ((startsWith_iff _ _).mp hb) hnp
    show findDelim (c :: (p' ++ (CHUNK_DELIM ++ rest))) = some (c :: p', rest)
    rw [findDelim, hpre]
    simp only [Bool.false_eq_true, if_false]
    rw [ih (fun c2 hc2 => hp c2 (List.mem_cons_of_mem c hc2)) rest]

theorem splitParts_encodeStream :
    ∀ (events : List WireEvent),
      splitParts (encodeStream events) = (events.map serialize, []) := by
  intro events
  induction events with
  | nil => exact splitParts_none rfl
  | cons e es ih =>
    show splitParts (serialize e ++ (CHUNK_DELIM ++ encodeStream es)) = _
    rw [splitParts_some (findDelim_payload (serialize e) (serialize_ne_newline e)
      (encodeStream es)), ih]
    rfl

theorem trimChars_eq_self {l : List Char} {a b : Char} (ha : l.head? = some a)
    (hb : l.getLast? = some b) (h1 : isWS a = false) (h2 : isWS b = false) :
    trimChars l = l := by
  unfold trimChars
  have hd : l.dropWhile isWS = l := by
    cases l with
    | nil => rfl
    | cons x xs =>
      simp only [List.head?_cons, Option.some.injEq] at ha
      subst ha
      rw [List.dropWhile_cons, h1]
      simp
  rw [hd]
  have hrev : l.reverse.dropWhile isWS = l.reverse := by
    cases hl : l.reverse with
    | nil => rfl
    | cons x xs =>
      have hx : l.getLast? = some x := by
        rw [← List.head?_reverse, hl]
        rfl
      rw [hx] at hb
      simp only [Option.some.injEq] at hb
      subst hb
      rw [List.dropWhile_cons, h2]
      simp
  rw [hrev, List.reverse_reverse]

theorem serialize_head (e : WireEvent) : (serialize e).head? = some '\x7b' := by
  cases e with
  | poses d => cases d with
    | none => rfl
    | some s => rfl
  | frame b ct => rfl
  | complete d => rfl
  | error d => rfl

theorem serialize_getLast (e : WireEvent) : (serialize e).getLast? = some '\x7d' := by
  cases e with
  | poses d =>
    cases d with
    | none => simp [serialize, List.getLast?_append, rbraceTok]
    | some s => simp [serialize, List.getLast?_append, endQB]
  | frame b ct =>
    simp [serialize, List.getLast?_append, List.getLast?_cons, endQB2]
  | complete d => simp [serialize, List.getLast?_append, endQB]
  | error d => simp [serialize, List.getLast?_append, endQB]

theorem serialize_ne_nil (e : WireEvent) : serialize e ≠ [] := by
  intro h
  have := serialize_head e
  rw [h] at this
  exact absurd this (by simp)

theorem processPart_serialize (e : WireEvent) : processPart (serialize e) = some e := by
  unfold processPart
  rw [trimChars_eq_self (serialize_head e) (serialize_getLast e) (by decide) (by decide)]
  rw [if_neg (serialize_ne_nil e)]
  exact parseLine_serialize e

theorem feedChunk_encodeStream (events : List WireEvent) :
    feedChunk ⟨[], []⟩ (encodeStream events) = ⟨[], events⟩ := by
  unfold feedChunk
  rw [List.nil_append, splitParts_encodeStream]
  simp only [List.nil_append, List.filterMap_map]
  have hcomp : (fun e => processPart (serialize e)) = fun e => some e := by
    funext e
    exact processPart_serialize e
  rw [show processPart ∘ serialize = fun e => some e from hcomp, List.filterMap_some]

/-- Claim C4 (confirmed): for every event sequence and every partition of its
encoded byte stream into chunks — however small, including splits inside the
delimiter or inside a base64 payload — the client's accumulate-split-parse
loop reconstructs exactly the original sequence of typed payloads, in order
and with nothing left in the buffer, and the result equals feeding the whole
stream at once.  With character-identical payload reconstruction
(`parseLine_serialize`), base64 image payloads decode back to identical
bytes. -/
theorem decoder_reconstructs_fragmented_stream (events : List WireEvent)
    (chunks : List (List Char)) (h : chunks.flatten = encodeStream events) :
    feedAll ⟨[], []⟩ chunks = ⟨[], events⟩ ∧
    feedAll ⟨[], []⟩ chunks = feedChunk ⟨[], []⟩ (encodeStream events) := by
  have h1 := feedAll_eq_flatten chunks ⟨[], []⟩ rfl
  rw [h] at h1
  exact ⟨h1.trans (feedChunk_encodeStream events), h1⟩

/-- A concrete three-event stream: planner text, one base64 frame, the
`complete` terminal. -/
def evC4 : List WireEvent :=
  [WireEvent.poses (some "twelve poses"), WireEvent.frame "QUJDRA==" "image/png",
    WireEvent.complete "Processing finished"]

/-- The wire text of `evC4`. -/
def streamC4 : List Char := encodeStream evC4

/-- A three-way fragmentation of `streamC4` whose cut points fall inside the
first delimiter and inside the base64 payload. -/
def chunksC4 : List (List Char) :=
  [streamC4.take 45, (streamC4.drop 45).take 75, (streamC4.drop 45).drop 75]

theorem decoder_reconstructs_fragmented_stream_witness :
    feedAll ⟨[], []⟩ chunksC4 = ⟨[], evC4⟩ ∧
    feedAll ⟨[], []⟩ chunksC4 = feedChunk ⟨[], []⟩ (encodeStream evC4) :=
  decoder_reconstructs_fragmented_stream evC4 chunksC4 (by
    show streamC4.take 45 ++ ((streamC4.drop 45).take 75 ++ ((streamC4.drop 45).drop 75 ++ []))
        = encodeStream evC4
    rw [List.append_nil, List.take_append_drop, List.take_append_drop]
    rfl)

/-! ## The orchestrator (`POST` in `route.ts`)

The remote calls are opaque collaborators; the orchestrator is a function of
their outcomes: the planner call's settled text or rejection, the outcome of
`JSON.parse(poses ?? "[]")` + `Array.isArray` (abstracted as `ParsedPoses`:
the parsed pose texts only feed the renderer prompt, so only the list shape
matters to the event stream; an absent planner text parses as `[]`, i.e.
`ParsedPoses.array []`), and the per-index renderer call outcomes. -/

/-- The image-or-text result of one `nanobanana` call (the adapter's return
value).  `text` carries `response.text`, which may be `undefined`. -/
inductive NanoResult
  | image (base64ImageData : String) (contentType : String)
  | text (data : Option String)
deriving DecidableEq

/-- Outcome of awaiting one renderer call: a settled result or a rejection
carrying an error message. -/
inductive NanoCall
  | ok (result : NanoResult)
  | throw (msg : String)
deriving DecidableEq

/-- Outcome of awaiting `generatePosesFromImageBuffer`: its `response.text`
(possibly `undefined`) or a rejection. -/
inductive PlannerResult
  | ok (text : Option String)
  | throw (msg : String)
deriving DecidableEq

/-- Outcome of `JSON.parse(poses ?? "[]")` followed by the `Array.isArray`
test: the parse throws; or the value is not an array; or it is an array of
the listed elements. -/
inductive ParsedPoses
  | parseError (msg : String)
  | notArray
  | array (poses : List String)
deriving DecidableEq

/-- The route's `for (const pose of posesJson)` loop from pose index `i`:
await `nanobanana`; an image-tagged result is enqueued as a frame event, any
other settled result is dropped and the loop continues; a rejection
propagates to the surrounding catch, which enqueues one `error` event and
closes the stream, so later poses are never rendered.  On normal exit the
`complete` event is enqueued.  Returns the events emitted from the loop
onward, and the number of renderer calls made. -/
def renderLoop (render : Nat → NanoCall) : List String → Nat → List WireEvent × Nat
  | [], _ => ([WireEvent.complete "Processing finished"], 0)
  | _ :: rest, i =>
    match render i with
    | NanoCall.throw m => ([WireEvent.error m], 1)
    | NanoCall.ok (NanoResult.image b ct) =>
      (WireEvent.frame b ct :: (renderLoop render rest (i + 1)).1,
        (renderLoop render rest (i + 1)).2 + 1)
    | NanoCall.ok (NanoResult.text _) =>
      ((renderLoop render rest (i + 1)).1, (renderLoop render rest (i + 1)).2 + 1)

/-- The body of the streaming `start` callback: planner call, `poses` event,
parse, render loop, terminal event — with the surrounding `try`/`catch` that
converts any rejection into a single `error` event and closes the stream.
Returns the emitted event sequence and the number of renderer calls. -/
def orchestrate (planner : PlannerResult) (parsed : ParsedPoses)
    (render : Nat → NanoCall) : List WireEvent × Nat :=
  match planner with
  | PlannerResult.throw m => ([WireEvent.error m], 0)
  | PlannerResult.ok text =>
    match parsed with
    | ParsedPoses.parseError m => ([WireEvent.poses text, WireEvent.error m], 0)
    | ParsedPoses.notArray =>
      ([WireEvent.poses text, WireEvent.complete "Processing finished"], 0)
    | ParsedPoses.array poses =>
      (WireEvent.poses text :: (renderLoop render poses 0).1, (renderLoop render poses 0).2)

/-- A `NextResponse.json` reply, or the streaming response with its emitted
events and renderer call count. -/
inductive PostResponse
  | json (status : Nat) (body : String)
  | stream (events : List WireEvent) (rendererCalls : Nat)
deriving DecidableEq

/-- `formData.get("image")` yields a file or `null`; only presence matters to
the control flow. -/
structure FormFile where
  type : String
deriving DecidableEq

/-- The `POST` handler: a missing image is answered with an immediate
non-streaming 400 JSON body before any stream is created; otherwise the
streaming response runs the orchestration. -/
def POST (image : Option FormFile) (planner : PlannerResult) (parsed : ParsedPoses)
    (render : Nat → NanoCall) : PostResponse :=
  match image with
  | none => PostResponse.json 400 "\x7b\"error\":\"No image provided\"\x7d"
  | some _ =>
    PostResponse.stream (orchestrate planner parsed render).1
      (orchestrate planner parsed render).2

/-- Discriminates the streaming response from the JSON reply. -/
def isStreamResp : PostResponse → Bool
  | PostResponse.stream _ _ => true
  | _ => false

/-- Frame events. -/
def isFrameEv : WireEvent → Bool
  | WireEvent.frame _ _ => true
  | _ => false

/-- Terminal events (`complete` or `error`). -/
def isTerminalEv : WireEvent → Bool
  | WireEvent.complete _ => true
  | WireEvent.error _ => true
  | _ => false

/-- `poses` events. -/
def isPosesEv : WireEvent → Bool
  | WireEvent.poses _ => true
  | _ => false

/-- The frame event the renderer outcome at index `i` contributes, when it is
image-tagged. -/
def imageEv (render : Nat → NanoCall) (i : Nat) : Option WireEvent :=
  match render i with
  | NanoCall.ok (NanoResult.image b ct) => some (WireEvent.frame b ct)
  | _ => none

theorem renderLoop_shape (render : Nat → NanoCall) :
    ∀ (ps : List String) (i : Nat), ∃ mid term,
      (renderLoop render ps i).1 = mid ++ [term] ∧
      (∀ e ∈ mid, isFrameEv e = true) ∧ isTerminalEv term = true := by
  intro ps
  induction ps with
  | nil =>
    intro i
    exact ⟨[], WireEvent.complete "Processing finished", rfl, by simp, rfl⟩
  | cons p rest ih =>
    intro i
    cases hr : render i with
    | throw m => exact ⟨[], WireEvent.error m, by simp [renderLoop, hr], by simp, rfl⟩
    | ok r =>
      cases r with
      | image b ct =>
        obtain ⟨mid, term, h1, h2, h3⟩ := ih (i + 1)
        refine ⟨WireEvent.frame b ct :: mid, term, by simp [renderLoop, hr, h1], ?_, h3⟩
        intro e he
        rcases List.mem_cons.mp he with rfl | he2
        · rfl
        · exact h2 e he2
      | text d =>
        obtain ⟨mid, term, h1, h2, h3⟩ := ih (i + 1)
        exact ⟨mid, term, by simp [renderLoop, hr, h1], h2, h3⟩

/-- Claim C2 (corrected, amended): the emitted sequence of a request that
reaches the streaming phase is: one `poses` event first *when the planner
call succeeds* — when it fails there is no `poses` event — then zero or more
frame events, then exactly one terminal event (`complete` or `error`), with
no event of any kind after the terminal one. -/
theorem stream_event_structure (planner : PlannerResult) (parsed : ParsedPoses)
    (render : Nat → NanoCall) :
    ∃ mid term,
      (orchestrate planner parsed render).1 =
        (match planner with
         | PlannerResult.ok t => [WireEvent.poses t]
         | PlannerResult.throw _ => []) ++ (mid ++ [term]) ∧
      (∀ e ∈ mid, isFrameEv e = true) ∧ isTerminalEv term = true := by
  cases planner with
  | throw m => exact ⟨[], WireEvent.error m, rfl, by simp, rfl⟩
  | ok t =>
    cases parsed with
    | parseError m => exact ⟨[], WireEvent.error m, rfl, by simp, rfl⟩
    | notArray => exact ⟨[], WireEvent.complete "Processing finished", rfl, by simp, rfl⟩
    | array ps =>
      obtain ⟨mid, term, h1, h2, h3⟩ := renderLoop_shape render ps 0
      exact ⟨mid, term, by simp [orchestrate, h1], h2, h3⟩

/-- Claim C2 counterexample: when the planner call rejects, the stream phase
is reached (the stream is already open) but the emitted sequence is a single
`error` event — it does not begin with a `poses` event as the claim states
for every request reaching the streaming phase. -/
theorem planner_failure_no_poses_event_cex :
    (orchestrate (PlannerResult.throw "network error") (ParsedPoses.array [])
        (fun _ => NanoCall.ok (NanoResult.text none))).1
      = [WireEvent.error "network error"] ∧
    ((orchestrate (PlannerResult.throw "network error") (ParsedPoses.array [])
        (fun _ => NanoCall.ok (NanoResult.text none))).1.countP
      (fun e => isPosesEv e)) = 0 :=
  ⟨rfl, rfl⟩

/-- Claim C6 (confirmed): a planner rejection yields a stream carrying
exactly one `error` event, zero frame events, and zero Frame Renderer
calls. -/
theorem planner_failure_single_error (m : String) (parsed : ParsedPoses)
    (render : Nat → NanoCall) :
    orchestrate (PlannerResult.throw m) parsed render = ([WireEvent.error m], 0) ∧
    ((orchestrate (PlannerResult.throw m) parsed render).1.countP
      (fun e => isFrameEv e)) = 0 :=
  ⟨rfl, rfl⟩

/-- Claim C9 (confirmed): a request without an image field gets an immediate
non-streaming 400 response with a JSON error body; no stream (and hence no
event of any kind) is produced. -/
theorem missing_image_immediate_400 (planner : PlannerResult) (parsed : ParsedPoses)
    (render : Nat → NanoCall) :
    POST none planner parsed render
      = PostResponse.json 400 "\x7b\"error\":\"No image provided\"\x7d" ∧
    isStreamResp (POST none planner parsed render) = false :=
  ⟨rfl, rfl⟩

/-- Claim C7 counterexample: planner output whose `JSON.parse` throws does
not degrade to an empty iteration with a `complete` terminal: the exception
reaches the stream-level catch, so the stream ends with an `error` event and
no `complete` is emitted. -/
theorem unparseable_planner_output_cex :
    (orchestrate (PlannerResult.ok (some "not json"))
        (ParsedPoses.parseError "Unexpected token")
        (fun _ => NanoCall.ok (NanoResult.text none))).1
      = [WireEvent.poses (some "not json"), WireEvent.error "Unexpected token"] ∧
    ((orchestrate (PlannerResult.ok (some "not json"))
        (ParsedPoses.parseError "Unexpected token")
        (fun _ => NanoCall.ok (NanoResult.text none))).1.contains
      (WireEvent.complete "Processing finished")) = false := by
  refine ⟨rfl, ?_⟩
  rfl

/-- Claim C7 (corrected, amended): a planner output that parses to a
non-array value is treated as an empty iteration set — zero frame events,
zero renderer calls, straight to `complete`; but a planner output that fails
to parse ends the stream with an `error` terminal (after the `poses` event),
zero frame events and zero renderer calls — not with `complete`. -/
theorem planner_parse_outcomes (t : Option String) (m : String)
    (render : Nat → NanoCall) :
    orchestrate (PlannerResult.ok t) (ParsedPoses.parseError m) render
      = ([WireEvent.poses t, WireEvent.error m], 0) ∧
    orchestrate (PlannerResult.ok t) ParsedPoses.notArray render
      = ([WireEvent.poses t, WireEvent.complete "Processing finished"], 0) :=
  ⟨rfl, rfl⟩

theorem filterMap_range_succ_shift (g : Nat → Option WireEvent) (k i : Nat) :
    (List.range (i + 1)).filterMap (fun j => g (k + j))
      = (match g k with | some e => [e] | none => [])
        ++ (List.range i).filterMap (fun j => g ((k + 1) + j)) := by
  rw [List.range_succ_eq_map, List.filterMap_cons, List.filterMap_map]
  have hshift : ((fun j => g (k + j)) ∘ Nat.succ) = fun j => g ((k + 1) + j) := by
    funext j
    show g (k + (j + 1)) = g ((k + 1) + j)
    exact congrArg g (by omega)
  rw [hshift]
  simp only [Nat.add_zero]
  cases hk : g k with
  | none => simp
  | some e => simp

theorem renderLoop_throw (render : Nat → NanoCall) (m : String) :
    ∀ (ps : List String) (k i : Nat), i < ps.length →
      render (k + i) = NanoCall.throw m →
      (∀ j, j < i → ∀ m2, render (k + j) ≠ NanoCall.throw m2) →
      (renderLoop render ps k).1
        = ((List.range i).filterMap (fun j => imageEv render (k + j)))
            ++ [WireEvent.error m] := by
  intro ps
  induction ps with
  | nil => intro k i hi; exact absurd hi (by simp)
  | cons p rest ih =>
    intro k i hi h2 h3
    cases i with
    | zero =>
      rw [Nat.add_zero] at h2
      simp [renderLoop, h2]
    | succ i2 =>
      have hk : ∀ m2, render k ≠ NanoCall.throw m2 := by
        intro m2
        have := h3 0 (Nat.succ_pos i2) m2
        rwa [Nat.add_zero] at this
      cases hr : render k with
      | throw m2 => exact absurd hr (hk m2)
      | ok r =>
        have hi2 : i2 < rest.length := by simpa using hi
        have h2b : render ((k + 1) + i2) = NanoCall.throw m := by
          rw [show (k + 1) + i2 = k + (i2 + 1) from by omega]
          exact h2
        have h3b : ∀ j, j < i2 → ∀ m2, render ((k + 1) + j) ≠ NanoCall.throw m2 := by
          intro j hj m2
          rw [show (k + 1) + j = k + (j + 1) from by omega]
          exact h3 (j + 1) (by omega) m2
        have hih := ih (k + 1) i2 hi2 h2b h3b
        rw [filterMap_range_succ_shift (imageEv render) k i2]
        cases r with
        | image b ct =>
          simp only [renderLoop, hr, hih, imageEv]
          simp
        | text d =>
          simp only [renderLoop, hr, hih, imageEv]
          simp

/-- Concrete renderer outcomes for the Scenario-C counterexample: pose 1
renders, pose 2 rejects, pose 3 would render. -/
def rendC1 : Nat → NanoCall := fun i =>
  if i = 0 then NanoCall.ok (NanoResult.image "QUFB" "image/png")
  else if i = 1 then NanoCall.throw "renderer failed"
  else NanoCall.ok (NanoResult.image "QkJC" "image/png")

/-- Claim C1 counterexample: with three planned poses and a renderer that
rejects on pose 2, the stream is `poses`, the frame for pose 1, then a
terminal `error` — the failure is not caught per-pose: pose 3 is never
rendered (only two renderer calls are made), its frame event is absent, and
no `complete` is emitted, contrary to the claimed "frame events for poses 1
and 3, then complete". -/
theorem renderer_failure_aborts_stream_cex :
    (orchestrate (PlannerResult.ok (some "three poses"))
        (ParsedPoses.array [ "a", "b", "c"]) rendC1).1
      = [WireEvent.poses (some "three poses"), WireEvent.frame "QUFB" "image/png",
          WireEvent.error "renderer failed"] ∧
    (orchestrate (PlannerResult.ok (some "three poses"))
        (ParsedPoses.array [ "a", "b", "c"]) rendC1).2 = 2 ∧
    ((orchestrate (PlannerResult.ok (some "three poses"))
        (ParsedPoses.array [ "a", "b", "c"]) rendC1).1.contains
      (WireEvent.complete "Processing finished")) = false ∧
    ((orchestrate (PlannerResult.ok (some "three poses"))
        (ParsedPoses.array [ "a", "b", "c"]) rendC1).1.contains
      (WireEvent.frame "QkJC" "image/png")) = false := by
  refine ⟨rfl, rfl, rfl, rfl⟩

/-- Claim C1 (corrected, amended): a Frame Renderer rejection is *not*
caught per-pose.  When the renderer first rejects at pose index `i`, the
stream consists of the `poses` event, the frame events of the image-tagged
results among poses `0..i-1` in order, and a single terminal `error` carrying
the rejection message: later poses are never attempted and no `complete` is
emitted. -/
theorem renderer_failure_aborts_stream (t : Option String) (ps : List String)
    (render : Nat → NanoCall) (i : Nat) (m : String)
    (h1 : i < ps.length) (h2 : render i = NanoCall.throw m)
    (h3 : ∀ j, j < i → ∀ m2, render j ≠ NanoCall.throw m2) :
    (orchestrate (PlannerResult.ok t) (ParsedPoses.array ps) render).1
      = WireEvent.poses t
          :: (((List.range i).filterMap (imageEv render)) ++ [WireEvent.error m]) := by
  have h2b : render (0 + i) = NanoCall.throw m := by rwa [Nat.zero_add]
  have h3b : ∀ j, j < i → ∀ m2, render (0 + j) ≠ NanoCall.throw m2 := by
    intro j hj m2
    rw [Nat.zero_add]
    exact h3 j hj m2
  have hloop := renderLoop_throw render m ps 0 i h1 h2b h3b
  have hfix : (fun j => imageEv render (0 + j)) = imageEv render := by
    funext j
    rw [Nat.zero_add]
  rw [hfix] at hloop
  simp [orchestrate, hloop]

/-- Renderer outcomes for the C1 witness: pose 1 renders, pose 2 rejects. -/
def rendC1w : Nat → NanoCall := fun i =>
  if i = 0 then NanoCall.ok (NanoResult.image "QUFB" "image/png")
  else NanoCall.throw "boom"

theorem renderer_failure_aborts_stream_witness :
    (orchestrate (PlannerResult.ok (some "p")) (ParsedPoses.array [ "a", "b"]) rendC1w).1
      = WireEvent.poses (some "p")
          :: (((List.range 1).filterMap (imageEv rendC1w)) ++ [WireEvent.error "boom"]) :=
  renderer_failure_aborts_stream (some "p") [ "a", "b"] rendC1w 1 "boom" (by decide)
    (by rfl)
    (fun j hj m2 => by
      have hj0 : j = 0 := by omega
      subst hj0
      simp [rendC1w])

theorem renderLoop_filter_frames (render : Nat → NanoCall) :
    ∀ (ps : List String) (k : Nat),
      ∃ n, n ≤ ps.length ∧
        ((renderLoop render ps k).1.filter isFrameEv)
          = (List.range n).filterMap (fun j => imageEv render (k + j)) ∧
        ((∀ j, j < ps.length → ∀ m, render (k + j) ≠ NanoCall.throw m) →
          n = ps.length) := by
  intro ps
  induction ps with
  | nil => intro k; exact ⟨0, by simp, by simp [renderLoop, isFrameEv], fun _ => rfl⟩
  | cons p rest ih =>
    intro k
    cases hr : render k with
    | throw m =>
      refine ⟨0, by simp, by simp [renderLoop, hr, isFrameEv], ?_⟩
      intro hno
      have := hno 0 (Nat.succ_pos rest.length) m
      rw [Nat.add_zero] at this
      exact absurd hr this
    | ok r =>
      obtain ⟨n, hn1, hn2, hn3⟩ := ih (k + 1)
      have hshift : ∀ (hno : ∀ j, j < rest.length + 1 → ∀ m, render (k + j) ≠ NanoCall.throw m),
          ∀ j, j < rest.length → ∀ m, render ((k + 1) + j) ≠ NanoCall.throw m := by
        intro hno j hj m
        rw [show (k + 1) + j = k + (j + 1) from by omega]
        exact hno (j + 1) (by omega) m
      refine ⟨n + 1, by simpa using hn1, ?_, ?_⟩
      · rw [filterMap_range_succ_shift (imageEv render) k n, ← hn2]
        cases r with
        | image b ct => simp [renderLoop, hr, isFrameEv, imageEv]
        | text d => simp [renderLoop, hr, isFrameEv, imageEv]
      · intro hno
        have := hn3 (hshift hno)
        simp [this]

/-- Claim C3 (confirmed): the render loop is strictly sequential (each call
is awaited before the next is issued: `renderLoop` only evaluates the next
index in the continuation of the current outcome), and the frame events on
the stream are exactly the image-tagged outcomes of an initial run `0..k-1`
of the pose sequence, in pose order — so their count is at most N and their
pose indices increase.  When every call in range settles (no rejection), the
run is the whole sequence: a frame event for exactly each image-tagged
result, none for text-tagged ones. -/
theorem frames_ordered_image_results (t : Option String) (ps : List String)
    (render : Nat → NanoCall) :
    (∃ k, k ≤ ps.length ∧
      ((orchestrate (PlannerResult.ok t) (ParsedPoses.array ps) render).1.filter isFrameEv)
        = (List.range k).filterMap (imageEv render)) ∧
    ((∀ j, j < ps.length → ∀ m, render j ≠ NanoCall.throw m) →
      ((orchestrate (PlannerResult.ok t) (ParsedPoses.array ps) render).1.filter isFrameEv)
        = (List.range ps.length).filterMap (imageEv render)) ∧
    ((orchestrate (PlannerResult.ok t) (ParsedPoses.array ps) render).1.filter
        isFrameEv).length ≤ ps.length := by
  obtain ⟨n, hn1, hn2, hn3⟩ := renderLoop_filter_frames render ps 0
  have hfix : (fun j => imageEv render (0 + j)) = imageEv render := by
    funext j
    rw [Nat.zero_add]
  rw [hfix] at hn2
  have hfilter :
      ((orchestrate (PlannerResult.ok t) (ParsedPoses.array ps) render).1.filter isFrameEv)
        = ((renderLoop render ps 0).1.filter isFrameEv) := by
    simp [orchestrate, isFrameEv]
  refine ⟨⟨n, hn1, by rw [hfilter, hn2]⟩, ?_, ?_⟩
  · intro hno
    have hno0 : ∀ j, j < ps.length → ∀ m, render (0 + j) ≠ NanoCall.throw m := by
      intro j hj m
      rw [Nat.zero_add]
      exact hno j hj m
    have := hn3 hno0
    rw [hfilter, hn2, this]
  · rw [hfilter, hn2]
    calc ((List.range n).filterMap (imageEv render)).length
        ≤ (List.range n).length := List.length_filterMap_le _ _
      _ = n := List.length_range n
      _ ≤ ps.length := hn1

/-- Renderer outcomes for the C3 witness: pose 1 yields an image, pose 2 a
text fallback. -/
def rendC3 : Nat → NanoCall := fun i =>
  if i = 0 then NanoCall.ok (NanoResult.image "QQ==" "image/png")
  else NanoCall.ok (NanoResult.text (some "no image"))

theorem frames_ordered_image_results_witness :
    ((orchestrate (PlannerResult.ok (some "p")) (ParsedPoses.array [ "a", "b"])
        rendC3).1.filter isFrameEv)
      = (List.range 2).filterMap (imageEv rendC3) :=
  (frames_ordered_image_results (some "p") [ "a", "b"] rendC3).2.1 (by
    intro j hj m
    have hj2 : j < 2 := by simpa using hj
    have : j = 0 ∨ j = 1 := by omega
    rcases this with rfl | rfl
    · simp [rendC3]
    · simp [rendC3])

/-! ## The client's dispatch (`generateAnimation` in `page.tsx`)

The decode loop's `switch` runs inside the same `try` block as `JSON.parse`;
its `catch (parseError)` logs a warning and continues with the next part.
State: the progress string, the recorded planner text, the appended frame
data-URLs, and the count of warnings logged by that catch. -/

/-- The client state touched by the dispatch. -/
structure ClientState where
  generationProgress : String
  generatedPoses : Option (Option String)
  frames : List String
  warnCount : Nat
deriving DecidableEq

/-- One dispatch of a decoded event by the `switch`.  The `frame` case sets
the progress string, then appends a data-URL frame when `base64ImageData` is
truthy (with `contentType || 'image/png'`).  The `error` case executes
`throw new Error(data.data)` inside the `try` whose `catch (parseError)` was
written for parse failures: the throw is caught there, a warning is logged,
no state changes, and the read loop continues.  `complete` only updates the
progress string; neither terminal breaks the loop. -/
def clientStep (st : ClientState) (e : WireEvent) : ClientState :=
  match e with
  | WireEvent.poses d =>
    { st with
        generationProgress := "Poses generated! Creating animation frames...",
        generatedPoses := some d }
  | WireEvent.frame b ct =>
    if b = "" then { st with generationProgress := "Animation frame generated!" }
    else
      { st with
          generationProgress := "Animation frame generated!",
          frames := st.frames
            ++ [ "data:" ++ (if ct = "" then "image/png" else ct) ++ ";base64," ++ b] }
  | WireEvent.complete _ =>
    { st with generationProgress := "Animation generation complete!" }
  | WireEvent.error _ => { st with warnCount := st.warnCount + 1 }

/-- The dispatch loop over the decoded events of one request, from the state
set just before the fetch. -/
def clientRun (events : List WireEvent) : ClientState :=
  events.foldl clientStep ⟨"Starting generation...", none, [], 0⟩

/-- Claim C8 (code bug): dispatching a terminal `error` event does *not* stop
the reading and does *not* surface the error message.  The
`throw new Error(data.data)` in the `error` case is caught by the inner
`catch (parseError)` meant for JSON parse failures — it logs
"Failed to parse streaming data" and continues — so the outer catch that
would set the progress to `"Error: " + message` is unreachable from an
`error` event.  Concretely: after an `error` event, a following frame event
is still processed (the loop kept reading), the progress string is the frame
message, the frame was appended, and the only trace of the error is one
parse-failure warning. -/
theorem error_event_swallowed_by_decoder :
    clientRun [WireEvent.error "boom", WireEvent.frame "QUJD" "image/png"]
      = ⟨"Animation frame generated!", none, [ "data:image/png;base64,QUJD"], 1⟩ ∧
    ((clientRun [WireEvent.error "boom",
        WireEvent.frame "QUJD" "image/png"]).generationProgress == "Error: boom") = false := by
  constructor
  · rfl
  · rfl

/-! ## The `nanobanana` adapter (`src/lib/ai.ts`) -/

/-- `part.inlineData`: base64 payload and media type. -/
structure InlineData where
  mimeType : String
  data : String
deriving DecidableEq

/-- One part of the first candidate's content: optional text and optional
inline image data (both may be present on one part). -/
structure ContentPart where
  text : Option String
  inlineData : Option InlineData
deriving DecidableEq

/-- The remote response as `nanobanana` reads it:
`response.candidates?.[0]?.content?.parts ?? []` collapsed into the part list
(any missing link yields `[]`), plus `response.text`. -/
structure NanoResponse where
  parts : List ContentPart
  text : Option String
deriving DecidableEq

/-- JS truthiness of `part.text`: present and non-empty. -/
def textTruthy : Option String → Bool
  | none => false
  | some s => !(s == "")

/-- The result loop of `nanobanana` over the parts: a part with truthy
`text` is only logged (`console.log`); otherwise a part with `inlineData`
returns the image-tagged result with that part's base64 `data` and
`mimeType`; when the loop falls through, the text-tagged result carries
`response.text` in a field named `data`. -/
def nanobananaLoop (fallback : Option String) : List ContentPart → NanoResult
  | [] => NanoResult.text fallback
  | p :: rest =>
    if textTruthy p.text then nanobananaLoop fallback rest
    else
      match p.inlineData with
      | some d => NanoResult.image d.data d.mimeType
      | none => nanobananaLoop fallback rest

/-- The post-response processing of `nanobanana` (the remote call itself is
the opaque collaborator producing `r`). -/
def nanobanana (r : NanoResponse) : NanoResult :=
  nanobananaLoop r.text r.parts

/-- A part the loop can return an image from: no truthy text, and inline
data present. -/
def usablePart (p : ContentPart) : Bool := !(textTruthy p.text) && p.inlineData.isSome

/-- The response of the C10 counterexample: one part carrying both a truthy
text and inline image data. -/
def respC10 : NanoResponse :=
  ⟨[⟨some "here is your image", some ⟨"image/png", "QUJD"⟩⟩], some "caption"⟩

/-- Claim C10 counterexample: a part of the first candidate's content
carries inline image data, yet `nanobanana` returns the text-tagged result —
because that part's `text` is truthy, the `if (part.text)` arm logs it and
the `else if (part.inlineData)` arm is never reached.  This refutes the
claimed "image-tagged iff some part carries inline image data". -/
theorem nanobanana_text_and_image_part_cex :
    nanobanana respC10 = NanoResult.text (some "caption") ∧
    respC10.parts.any (fun p => p.inlineData.isSome) = true :=
  ⟨rfl, rfl⟩

/-- Claim C10 (corrected, amended): `nanobanana` returns an image-tagged
result exactly when some part has inline data *and no truthy text*, and then
it returns the base64 `data` and `mimeType` of the first such part (text
parts before it are only logged; a part with both text and inline data is
skipped); otherwise it returns the text-tagged result whose payload sits in
the field named `data` and carries `response.text`. -/
theorem nanobanana_first_usable_image_part (r : NanoResponse) :
    nanobanana r =
      (match (r.parts.find? usablePart).bind ContentPart.inlineData with
       | some d => NanoResult.image d.data d.mimeType
       | none => NanoResult.text r.text) := by
  show nanobananaLoop r.text r.parts = _
  induction r.parts with
  | nil => rfl
  | cons p rest ih =>
    by_cases ht : textTruthy p.text = true
    · have hu : usablePart p = false := by simp [usablePart, ht]
      rw [List.find?_cons_of_neg _ (by simp [hu])]
      simpa [nanobananaLoop, ht] using ih
    · have htf : textTruthy p.text = false := by
        cases hb : textTruthy p.text
        · rfl
        · exact absurd hb ht
      cases hd : p.inlineData with
      | some d =>
        have hu : usablePart p = true := by simp [usablePart, htf, hd]
        rw [List.find?_cons_of_pos _ hu]
        simp [nanobananaLoop, htf, hd]
      | none =>
        have hu : usablePart p = false := by simp [usablePart, htf, hd]
        rw [List.find?_cons_of_neg _ (by simp [hu])]
        simpa [nanobananaLoop, htf, hd] using ih

theorem stream_event_structure_witness :
    ∃ mid term,
      (orchestrate (PlannerResult.ok (some "p")) (ParsedPoses.array [ "a"])
          (fun _ => NanoCall.ok (NanoResult.text none))).1
        = (match PlannerResult.ok (some "p") with
           | PlannerResult.ok t => [WireEvent.poses t]
           | PlannerResult.throw _ => []) ++ (mid ++ [term]) ∧
      (∀ e ∈ mid, isFrameEv e = true) ∧ isTerminalEv term = true :=
  stream_event_structure (PlannerResult.ok (some "p")) (ParsedPoses.array [ "a"])
    (fun _ => NanoCall.ok (NanoResult.text none))
